import Mathlib

/-!
Verification of the sample-indexing and caching layer of the repository
(`src/data/abstractbasedataset.py`): the variation codec, the dataset
index mapping, exclusion-list parsing, spectrogram normalization, the
global statistics aggregation and the zero-volume preset scan.

Python integers are embedded as `Int` (with Python floor division
`Int.fdiv` / `Int.fmod`), dataset indices as `Nat`, float values as `ℚ`
(exact arithmetic; the aggregated standard deviation, which involves a
square root, lives in `ℝ`), and raising an exception as returning
`none` / `Except.error`.
-/

/-! ## Variation codec
`PresetDataset.get_nb_variations_per_note`, `PresetDataset._get_variation_args`
and `PresetDataset._get_variation_index_from_args`.  The two counts
`self._nb_preset_variations_per_note` and `self._nb_audio_delay_variations_per_note`
are abstract properties of the dataset and are passed as parameters. -/

/-- PresetDataset.get_nb_variations_per_note: same number of variations for each
preset, namely the product of the two augmentation counts. -/
def get_nb_variations_per_note (nb_preset_variations nb_audio_delay_variations : Int) : Int :=
  nb_preset_variations * nb_audio_delay_variations

/-- PresetDataset._get_variation_args: transforms a variation index into
(preset_variation, audio_delay); raises ValueError (here: `none`) when the
index is negative or at least the total number of variations. -/
def get_variation_args (nb_preset_variations nb_audio_delay_variations variation : Int) :
    Option (Int × Int) :=
  if variation < 0 ∨ get_nb_variations_per_note nb_preset_variations nb_audio_delay_variations ≤ variation then
    none
  else
    some (variation.fdiv nb_audio_delay_variations, variation.fmod nb_audio_delay_variations)

/-- PresetDataset._get_variation_index_from_args. -/
def get_variation_index_from_args (nb_audio_delay_variations preset_variation audio_delay : Int) :
    Int :=
  audio_delay + preset_variation * nb_audio_delay_variations

/-! ## Dataset index mapping
`AudioDataset.__len__`, the index-resolution part of `AudioDataset.__getitem__`
and `AudioDataset.get_index_from_preset_UID`. -/

/-- The attributes of an `AudioDataset` instance that the indexing layer reads.
`get_nb_variations_per_note` models the overridable method of the same name
(the base class returns 1 for every preset). -/
structure AudioDataset where
  midi_notes : List (Int × Int)
  multichannel_stacked_spectrograms : Bool
  valid_preset_UIDs : List Int
  data_augmentation : Bool
  spectrogram_min_dB : ℚ
  get_nb_variations_per_note : Int → Nat

/-- AudioDataset.valid_presets_count. -/
def AudioDataset.valid_presets_count (d : AudioDataset) : Nat :=
  d.valid_preset_UIDs.length

/-- AudioDataset.midi_notes_per_preset. -/
def AudioDataset.midi_notes_per_preset (d : AudioDataset) : Nat :=
  d.midi_notes.length

/-- AudioDataset.__len__. -/
def AudioDataset.len (d : AudioDataset) : Nat :=
  if d.multichannel_stacked_spectrograms then
    d.valid_presets_count
  else
    d.valid_presets_count * d.midi_notes_per_preset

/-- The index-resolution step of AudioDataset.__getitem__: converts a dataset
index into the index of the preset inside `valid_preset_UIDs` together with the
list of MIDI-note indexes the item loads. -/
def getitem_note_resolution (d : AudioDataset) (i : Nat) : Nat × List Nat :=
  if 1 < d.midi_notes_per_preset ∧ d.multichannel_stacked_spectrograms = false then
    (i / d.midi_notes_per_preset, [i % d.midi_notes_per_preset])
  else
    (i, List.range d.midi_notes_per_preset)

/-- The preset UID loaded by AudioDataset.__getitem__ for dataset index `i`
(`preset_UID = self.valid_preset_UIDs[preset_index]`). -/
def getitem_preset_UID (d : AudioDataset) (i : Nat) : Int :=
  d.valid_preset_UIDs.getD (getitem_note_resolution d i).1 0

/-- AudioDataset.get_index_from_preset_UID: the dataset index (or list of
indexes) of a preset given by its UID; raises ValueError (here: `none`) when
the UID is not in the valid list. -/
def get_index_from_preset_UID (d : AudioDataset) (preset_UID : Int) :
    Option (Nat ⊕ List Nat) :=
  if preset_UID ∈ d.valid_preset_UIDs then
    let index_in_valid_list := d.valid_preset_UIDs.indexOf preset_UID
    if 1 < d.midi_notes_per_preset ∧ d.multichannel_stacked_spectrograms = false then
      Option.some (Sum.inr ((List.range d.midi_notes_per_preset).map
        (fun j => index_in_valid_list * d.midi_notes_per_preset + j)))
    else
      Option.some (Sum.inl index_in_valid_list)
  else
    none

/-- Whether a dataset index occurs in the value returned by
`get_index_from_preset_UID` (a single index or a list of indexes). -/
def result_contains_index : Nat ⊕ List Nat → Nat → Prop
  | Sum.inl j, i => j = i
  | Sum.inr l, i => i ∈ l

/-! ### Concrete scenario datasets: 6 MIDI notes, 100 valid presets. -/

def midi_notes_6 : List (Int × Int) :=
  [(40, 85), (50, 85), (60, 42), (60, 85), (60, 127), (70, 85)]

def valid_UIDs_100 : List Int :=
  (List.range 100).map (fun k => ((1000 + k : Nat) : Int))

/-- A 6-note, 100-preset dataset in independent (non-stacked) mode. -/
def dataset6x100 : AudioDataset :=
  { midi_notes := midi_notes_6,
    multichannel_stacked_spectrograms := false,
    valid_preset_UIDs := valid_UIDs_100,
    data_augmentation := false,
    spectrogram_min_dB := -120,
    get_nb_variations_per_note := fun _ => 1 }

/-- The same dataset in multichannel stacked mode. -/
def dataset6x100_stacked : AudioDataset :=
  { dataset6x100 with multichannel_stacked_spectrograms := true }

/-! ## C1 and C2: the variation codec -/

/-- C1: the variation codec is a bijection on the valid range: decoding any
valid variation index and re-encoding the resulting pair returns the index,
and encoding any valid (preset_variation, audio_delay) pair and decoding the
resulting index returns exactly that pair. -/
theorem variation_codec_roundtrip (nbp nbd : Int) :
    (∀ v : Int, 0 ≤ v → v < nbp * nbd →
      ∃ pv ad : Int, get_variation_args nbp nbd v = some (pv, ad) ∧
        get_variation_index_from_args nbd pv ad = v) ∧
    (∀ pv ad : Int, 0 ≤ pv → pv < nbp → 0 ≤ ad → ad < nbd →
      get_variation_args nbp nbd (get_variation_index_from_args nbd pv ad) = some (pv, ad)) := by
  have hcodec : ∀ v : Int, 0 ≤ v → v < nbp * nbd →
      get_variation_args nbp nbd v = some (v.fdiv nbd, v.fmod nbd) := by
    intro v hv0 hvlt
    unfold get_variation_args
    rw [if_neg]
    push_neg
    exact ⟨hv0, by simpa [get_nb_variations_per_note] using hvlt⟩
  constructor
  · intro v hv0 hvlt
    refine ⟨v.fdiv nbd, v.fmod nbd, hcodec v hv0 hvlt, ?_⟩
    unfold get_variation_index_from_args
    have h := Int.fmod_add_fdiv v nbd
    linarith [h, mul_comm nbd (v.fdiv nbd)]
  · intro pv ad hpv0 hpvlt had0 hadlt
    have hnbd0 : 0 < nbd := lt_of_le_of_lt had0 hadlt
    have hv0 : 0 ≤ get_variation_index_from_args nbd pv ad := by
      unfold get_variation_index_from_args
      have : 0 ≤ pv * nbd := mul_nonneg hpv0 (le_of_lt hnbd0)
      linarith
    have hvlt : get_variation_index_from_args nbd pv ad < nbp * nbd := by
      unfold get_variation_index_from_args
      have h1 : ad + pv * nbd < (pv + 1) * nbd := by ring_nf; linarith
      have h2 : (pv + 1) * nbd ≤ nbp * nbd :=
        mul_le_mul_of_nonneg_right (by linarith) (le_of_lt hnbd0)
      linarith
    rw [hcodec _ hv0 hvlt]
    unfold get_variation_index_from_args
    have hdiv : (ad + pv * nbd).fdiv nbd = pv := by
      rw [Int.fdiv_eq_ediv _ (le_of_lt hnbd0),
        Int.add_mul_ediv_right ad pv (ne_of_gt hnbd0),
        Int.ediv_eq_zero_of_lt had0 hadlt, zero_add]
    have hmod : (ad + pv * nbd).fmod nbd = ad := by
      rw [Int.fmod_eq_emod _ (le_of_lt hnbd0), Int.add_mul_emod_self,
        Int.emod_eq_of_lt had0 hadlt]
    rw [hdiv, hmod]

/-- C1 witness: the codec round-trips at nb_preset_variations = 4,
nb_audio_delay_variations = 3, variation index 7 and pair (2, 1). -/
theorem variation_codec_roundtrip_witness :
    (∃ pv ad : Int, get_variation_args 4 3 7 = some (pv, ad) ∧
      get_variation_index_from_args 3 pv ad = 7) ∧
    get_variation_args 4 3 (get_variation_index_from_args 3 2 1) = some (2, 1) :=
  ⟨(variation_codec_roundtrip 4 3).1 7 (by decide) (by decide),
   (variation_codec_roundtrip 4 3).2 2 1 (by decide) (by decide) (by decide) (by decide)⟩

/-- C2: decoding a variation index fails exactly when the index is negative or
at least nb_preset_variations * nb_audio_delay_variations, and succeeds with a
pair for every index inside the range. -/
theorem variation_args_range_error (nbp nbd v : Int) :
    (get_variation_args nbp nbd v = none ↔ (v < 0 ∨ nbp * nbd ≤ v)) ∧
    (0 ≤ v → v < nbp * nbd → ∃ pv ad : Int, get_variation_args nbp nbd v = some (pv, ad)) := by
  constructor
  · unfold get_variation_args get_nb_variations_per_note
    by_cases h : v < 0 ∨ nbp * nbd ≤ v
    · simp [h]
    · simp only [if_neg h]
      simp only [h, iff_false]
      intro hcontra
      exact Option.noConfusion hcontra
  · intro hv0 hvlt
    refine ⟨v.fdiv nbd, v.fmod nbd, ?_⟩
    unfold get_variation_args
    rw [if_neg]
    push_neg
    exact ⟨hv0, by simpa [get_nb_variations_per_note] using hvlt⟩

/-- C2 witness: with 4 preset variations and 3 delay variations, index 12 is
rejected, index -1 is rejected, and index 11 decodes to a pair. -/
theorem variation_args_range_error_witness :
    get_variation_args 4 3 12 = none ∧
    get_variation_args 4 3 (-1) = none ∧
    (∃ pv ad : Int, get_variation_args 4 3 11 = some (pv, ad)) :=
  ⟨(variation_args_range_error 4 3 12).1.mpr (Or.inr (by decide)),
   (variation_args_range_error 4 3 (-1)).1.mpr (Or.inl (by decide)),
   (variation_args_range_error 4 3 11).2 (by decide) (by decide)⟩

/-! ## C3: dataset length -/

/-- C3: the dataset length is the number of valid preset UIDs in stacked mode
and that number times the number of configured MIDI notes otherwise; with 6
notes and 100 valid presets this gives 100 (stacked) and 600 (independent). -/
theorem audio_dataset_len_spec (d : AudioDataset) :
    (d.multichannel_stacked_spectrograms = true → d.len = d.valid_preset_UIDs.length) ∧
    (d.multichannel_stacked_spectrograms = false →
      d.len = d.valid_preset_UIDs.length * d.midi_notes.length) ∧
    dataset6x100_stacked.len = 100 ∧ dataset6x100.len = 600 := by
  refine ⟨fun h => ?_, fun h => ?_, by decide, by decide⟩
  · simp [AudioDataset.len, AudioDataset.valid_presets_count, h]
  · simp [AudioDataset.len, AudioDataset.valid_presets_count,
      AudioDataset.midi_notes_per_preset, h]

/-- C3 witness: the two length formulas applied to the concrete 6-note,
100-preset datasets. -/
theorem audio_dataset_len_spec_witness :
    dataset6x100.len = 600 ∧ dataset6x100_stacked.len = 100 ∧
    dataset6x100_stacked.len = dataset6x100_stacked.valid_preset_UIDs.length ∧
    dataset6x100.len = dataset6x100.valid_preset_UIDs.length * dataset6x100.midi_notes.length :=
  ⟨(audio_dataset_len_spec dataset6x100).2.2.2,
   (audio_dataset_len_spec dataset6x100_stacked).2.2.1,
   (audio_dataset_len_spec dataset6x100_stacked).1 rfl,
   (audio_dataset_len_spec dataset6x100).2.1 rfl⟩

/-! ## C4: index resolution in __getitem__ -/

/-- C4: for every in-range dataset index, non-stacked resolution yields the
preset at position i / n_notes and the single note index i % n_notes, while
stacked resolution yields the preset at position i together with all note
indexes. -/
theorem getitem_index_resolution_spec (d : AudioDataset) (i : Nat) (hi : i < d.len) :
    (d.multichannel_stacked_spectrograms = false →
      getitem_note_resolution d i = (i / d.midi_notes_per_preset, [i % d.midi_notes_per_preset]) ∧
      getitem_preset_UID d i = d.valid_preset_UIDs.getD (i / d.midi_notes_per_preset) 0) ∧
    (d.multichannel_stacked_spectrograms = true →
      getitem_note_resolution d i = (i, List.range d.midi_notes_per_preset) ∧
      getitem_preset_UID d i = d.valid_preset_UIDs.getD i 0) := by
  constructor
  · intro hst
    have hres : getitem_note_resolution d i
        = (i / d.midi_notes_per_preset, [i % d.midi_notes_per_preset]) := by
      by_cases h1 : 1 < d.midi_notes_per_preset
      · unfold getitem_note_resolution
        rw [if_pos ⟨h1, hst⟩]
      · -- 0 or 1 MIDI note; an in-range index forces exactly 1 note
        have hn1 : d.midi_notes_per_preset = 1 := by
          rcases Nat.lt_or_ge d.midi_notes_per_preset 1 with h0 | hge
          · exfalso
            have hn0 : d.midi_notes_per_preset = 0 := Nat.lt_one_iff.mp h0
            rw [AudioDataset.len, hst] at hi
            simp only [Bool.false_eq_true, if_false, hn0, Nat.mul_zero] at hi
            exact Nat.not_lt_zero i hi
          · omega
        unfold getitem_note_resolution
        rw [if_neg (by simp [h1])]
        rw [hn1]
        have hr1 : List.range 1 = [0] := by decide
        rw [hr1, Nat.div_one, Nat.mod_one]
    exact ⟨hres, by rw [getitem_preset_UID, hres]⟩
  · intro hst
    have hres : getitem_note_resolution d i = (i, List.range d.midi_notes_per_preset) := by
      unfold getitem_note_resolution
      rw [if_neg (by simp [hst])]
    exact ⟨hres, by rw [getitem_preset_UID, hres]⟩

/-- C4 witness: in the 6-note, 100-preset independent dataset, index 150
resolves to the preset at position 25 (UID 1025 = valid_UIDs[25]) and to the
first MIDI note (note index 0). -/
theorem getitem_index_resolution_spec_witness :
    150 < dataset6x100.len ∧
    getitem_note_resolution dataset6x100 150 = (25, [0]) ∧
    getitem_preset_UID dataset6x100 150 = 1025 ∧
    dataset6x100.valid_preset_UIDs.getD 25 0 = 1025 := by
  have h := (getitem_index_resolution_spec dataset6x100 150 (by decide)).1 rfl
  exact ⟨by decide, h.1.trans (by decide), h.2.trans (by decide), by decide⟩

/-! ## C5: mutual inversion of index resolution and UID lookup -/

theorem list_getD_eq_getElem {α : Type} (l : List α) (dflt : α) {i : Nat}
    (h : i < l.length) : l.getD i dflt = l[i] := by
  simp [List.getD_eq_getElem?_getD, List.getElem?_eq_getElem h]

theorem valid_UIDs_100_nodup : valid_UIDs_100.Nodup := by
  have hinj : Function.Injective (fun k : Nat => ((1000 + k : Nat) : Int)) := by
    intro a b hab
    simp only [Int.natCast_inj] at hab
    omega
  exact List.Nodup.map hinj (List.nodup_range 100)

/-- C5: for every in-range dataset index i, the result of looking up the UID
that i resolves to contains i; looking up a UID outside the valid list fails;
and in stacked mode distinct indices resolve to distinct UIDs (the valid UID
list holds pairwise-distinct identifiers). -/
theorem uid_index_inverse (d : AudioDataset) (hnd : d.valid_preset_UIDs.Nodup) :
    (∀ i, i < d.len →
      ∃ r, get_index_from_preset_UID d (getitem_preset_UID d i) = some r ∧
        result_contains_index r i) ∧
    (∀ uid, uid ∉ d.valid_preset_UIDs → get_index_from_preset_UID d uid = none) ∧
    (d.multichannel_stacked_spectrograms = true →
      ∀ i j, i < d.len → j < d.len → i ≠ j →
        getitem_preset_UID d i ≠ getitem_preset_UID d j) := by
  refine ⟨?_, ?_, ?_⟩
  · intro i hi
    by_cases hc : 1 < d.midi_notes_per_preset ∧ d.multichannel_stacked_spectrograms = false
    · -- several notes, independent spectrograms: a block of n consecutive indexes
      have hn : 0 < d.midi_notes_per_preset := Nat.lt_of_lt_of_le Nat.zero_lt_one (le_of_lt hc.1)
      have hlen : d.len = d.valid_preset_UIDs.length * d.midi_notes_per_preset := by
        simp [AudioDataset.len, AudioDataset.valid_presets_count, hc.2]
      have hidx : i / d.midi_notes_per_preset < d.valid_preset_UIDs.length := by
        rw [Nat.div_lt_iff_lt_mul hn]
        rw [hlen] at hi
        exact hi
      have huid : getitem_preset_UID d i
          = d.valid_preset_UIDs[i / d.midi_notes_per_preset] := by
        rw [getitem_preset_UID, getitem_note_resolution, if_pos hc]
        exact list_getD_eq_getElem _ _ hidx
      have hmem : getitem_preset_UID d i ∈ d.valid_preset_UIDs := by
        rw [huid]
        exact List.getElem_mem hidx
      refine ⟨Sum.inr ((List.range d.midi_notes_per_preset).map
        (fun j => (i / d.midi_notes_per_preset) * d.midi_notes_per_preset + j)), ?_, ?_⟩
      · rw [get_index_from_preset_UID, if_pos hmem, if_pos hc]
        rw [huid, List.indexOf_getElem hnd]
      · show i ∈ _
        rw [List.mem_map]
        refine ⟨i % d.midi_notes_per_preset, List.mem_range.mpr (Nat.mod_lt _ hn), ?_⟩
        have hdm := Nat.div_add_mod i d.midi_notes_per_preset
        rw [Nat.mul_comm] at hdm
        omega
    · -- stacked spectrograms, or a single MIDI note: one index per preset
      have hidx : i < d.valid_preset_UIDs.length := by
        by_cases hst : d.multichannel_stacked_spectrograms = true
        · rw [AudioDataset.len, if_pos hst] at hi
          exact hi
        · have hst' : d.multichannel_stacked_spectrograms = false := by
            revert hst
            cases d.multichannel_stacked_spectrograms <;> simp
          have h1 : ¬ 1 < d.midi_notes_per_preset := fun h => hc ⟨h, hst'⟩
          rw [AudioDataset.len, hst'] at hi
          simp only [Bool.false_eq_true, if_false, AudioDataset.valid_presets_count] at hi
          have hn1 : d.midi_notes_per_preset = 1 := by
            rcases Nat.lt_or_ge d.midi_notes_per_preset 1 with h0 | hge
            · exfalso
              rw [Nat.lt_one_iff.mp h0, Nat.mul_zero] at hi
              exact Nat.not_lt_zero i hi
            · omega
          rw [hn1, Nat.mul_one] at hi
          exact hi
      have huid : getitem_preset_UID d i = d.valid_preset_UIDs[i] := by
        rw [getitem_preset_UID, getitem_note_resolution, if_neg hc]
        exact list_getD_eq_getElem _ _ hidx
      have hmem : getitem_preset_UID d i ∈ d.valid_preset_UIDs := by
        rw [huid]
        exact List.getElem_mem hidx
      refine ⟨Sum.inl (d.valid_preset_UIDs.indexOf (getitem_preset_UID d i)), ?_, ?_⟩
      · rw [get_index_from_preset_UID, if_pos hmem, if_neg hc]
      · show d.valid_preset_UIDs.indexOf (getitem_preset_UID d i) = i
        rw [huid, List.indexOf_getElem hnd]
  · intro uid huid
    rw [get_index_from_preset_UID, if_neg huid]
  · intro hst i j hi hj hne
    have hcond : ¬ (1 < d.midi_notes_per_preset ∧ d.multichannel_stacked_spectrograms = false) := by
      simp [hst]
    have hlen : d.len = d.valid_preset_UIDs.length := by
      rw [AudioDataset.len, if_pos hst]
      rfl
    rw [hlen] at hi hj
    have hui : getitem_preset_UID d i = d.valid_preset_UIDs[i] := by
      rw [getitem_preset_UID, getitem_note_resolution, if_neg hcond]
      exact list_getD_eq_getElem _ _ hi
    have huj : getitem_preset_UID d j = d.valid_preset_UIDs[j] := by
      rw [getitem_preset_UID, getitem_note_resolution, if_neg hcond]
      exact list_getD_eq_getElem _ _ hj
    rw [hui, huj]
    intro heq
    exact hne ((hnd.getElem_inj_iff).mp heq)

/-- C5 witness: in the concrete 6-note, 100-preset datasets, the lookup of the
UID resolved from index 150 contains 150, looking up the absent UID 5 fails,
and in stacked mode indices 3 and 4 resolve to distinct UIDs. -/
theorem uid_index_inverse_witness :
    (∃ r, get_index_from_preset_UID dataset6x100 (getitem_preset_UID dataset6x100 150) = some r ∧
      result_contains_index r 150) ∧
    get_index_from_preset_UID dataset6x100 5 = none ∧
    getitem_preset_UID dataset6x100_stacked 3 ≠ getitem_preset_UID dataset6x100_stacked 4 := by
  refine ⟨(uid_index_inverse dataset6x100 valid_UIDs_100_nodup).1 150 (by decide),
    (uid_index_inverse dataset6x100 valid_UIDs_100_nodup).2.1 5 (by decide),
    (uid_index_inverse dataset6x100_stacked valid_UIDs_100_nodup).2.2 rfl 3 4
      (by decide) (by decide) (by decide)⟩

/-! ## C6: exclusion-list parsing
`AudioDataset.excluded_patches_UIDs`: the file contents are embedded as a
`List Char`; text helpers model the Python string operations used there. -/

/-- Python str.split(sep) for a single separator character. -/
def splitOnChar (c : Char) : List Char → List (List Char)
  | [] => [[]]
  | x :: xs =>
    match splitOnChar c xs with
    | [] => [[]]
    | r :: rs => if x = c then [] :: r :: rs else (x :: r) :: rs

/-- Python str.strip(): removes leading and trailing whitespace. -/
def pyStrip (w : List Char) : List Char :=
  ((w.dropWhile Char.isWhitespace).reverse.dropWhile Char.isWhitespace).reverse

/-- Decimal digit-string value; `none` when empty or containing a non-digit. -/
def pyDigitsToNat (ds : List Char) : Option Nat :=
  if ds = [] then none
  else if ds.all (fun c => c.isDigit) then
    some (ds.foldl (fun acc c => 10 * acc + (c.toNat - 48)) 0)
  else none

/-- Python int(word.strip()): strips whitespace, then an optional sign followed
by decimal digits (digit-grouping underscores are not modelled); `none` models
the ValueError raised for a malformed token. -/
def pyParseInt (w : List Char) : Option Int :=
  match pyStrip w with
  | '+' :: ds => (pyDigitsToNat ds).map (fun n => (n : Int))
  | '-' :: ds => (pyDigitsToNat ds).map (fun n => -(n : Int))
  | ds => (pyDigitsToNat ds).map (fun n => (n : Int))

/-- The lines list built by excluded_patches_UIDs, as produced by
f.readlines() followed by rstrip of the trailing newline of every line. -/
def pyReadLinesRstrip (text : List Char) : List (List Char) :=
  match text with
  | [] => []
  | _ =>
    let parts := splitOnChar '\n' text
    if text.getLast? = some '\n' then parts.dropLast else parts

/-- Processing of one comma-separated word of an exclusion line: a parsed UID
is appended, a malformed token adds exactly one warning (the warnings.warn
call) and is skipped. -/
def scan_word_step (a : List Int × Nat) (word : List Char) : List Int × Nat :=
  match pyParseInt word with
  | some UID => (a.1 ++ [UID], a.2)
  | none => (a.1, a.2 + 1)

/-- Processing of one line of the exclusion file: empty lines and lines whose
first character is the comment mark are ignored, any other line is split on
commas and every word is parsed. -/
def scanExclusionLine (acc : List Int × Nat) (line : List Char) : List Int × Nat :=
  if 0 < line.length ∧ line.head? ≠ some '#' then
    (splitOnChar ',' line).foldl scan_word_step acc
  else acc

/-- The accumulation loop of AudioDataset.excluded_patches_UIDs over all
lines, returning the excluded UIDs and the number of warnings emitted. -/
def excluded_patches_UIDs_scan (lines : List (List Char)) : List Int × Nat :=
  lines.foldl scanExclusionLine ([], 0)

/-- AudioDataset.excluded_patches_UIDs applied to the exclusion-file text. -/
def excluded_patches_UIDs (text : List Char) : List Int × Nat :=
  excluded_patches_UIDs_scan (pyReadLinesRstrip text)

/-- The concrete exclusion-file input of the parsing scenario. -/
def exclusion_test_text : List Char :=
  ("12, 7\n# comment\n\nabc, 9\n").toList

theorem scan_word_fold (words : List (List Char)) (us : List Int) (w : Nat) :
    words.foldl scan_word_step (us, w)
      = (us ++ words.filterMap pyParseInt,
         w + words.countP (fun tok => (pyParseInt tok).isNone)) := by
  induction words generalizing us w with
  | nil => simp
  | cons head tail ih =>
    cases hp : pyParseInt head with
    | some UID =>
      simp only [List.foldl_cons, scan_word_step, hp]
      rw [ih]
      simp [List.filterMap_cons, List.countP_cons, hp]
    | none =>
      simp only [List.foldl_cons, scan_word_step, hp]
      rw [ih]
      simp [List.filterMap_cons, List.countP_cons, hp]
      omega

/-- C6: parsing the exclusion text ignores blank and comment lines, parses
every comma-separated token of the remaining lines with surrounding
whitespace stripped, and a malformed token adds exactly one non-fatal warning
while every other token of the same line is still parsed; the scenario input
yields the UIDs 12, 7, 9 with exactly one warning. -/
theorem exclusion_list_parsing :
    excluded_patches_UIDs exclusion_test_text = ([12, 7, 9], 1) ∧
    (∀ ls1 ls2 line, (line = [] ∨ line.head? = some '#') →
      excluded_patches_UIDs_scan (ls1 ++ line :: ls2)
        = excluded_patches_UIDs_scan (ls1 ++ ls2)) ∧
    (∀ us w line, 0 < line.length → line.head? ≠ some '#' →
      scanExclusionLine (us, w) line
        = (us ++ (splitOnChar ',' line).filterMap pyParseInt,
           w + (splitOnChar ',' line).countP (fun tok => (pyParseInt tok).isNone))) := by
  refine ⟨by decide, ?_, ?_⟩
  · intro ls1 ls2 line hline
    have hskip : ∀ a : List Int × Nat, scanExclusionLine a line = a := by
      intro a
      rcases hline with h | h
      · rw [scanExclusionLine, if_neg]
        simp [h]
      · rw [scanExclusionLine, if_neg]
        simp [h]
    rw [excluded_patches_UIDs_scan, excluded_patches_UIDs_scan,
      List.foldl_append, List.foldl_append, List.foldl_cons, hskip]
  · intro us w line hlen hhead
    rw [scanExclusionLine, if_pos ⟨hlen, hhead⟩, scan_word_fold]

/-- C6 witness: a comment line contributes nothing, and the malformed line
with tokens abc and 9 yields the single UID 9 with exactly one warning. -/
theorem exclusion_list_parsing_witness :
    excluded_patches_UIDs_scan ([] ++ ("# comment").toList :: [("12, 7").toList])
      = excluded_patches_UIDs_scan ([] ++ [("12, 7").toList]) ∧
    scanExclusionLine ([], 0) (("abc, 9").toList) = ([9], 1) := by
  refine ⟨exclusion_list_parsing.2.1 [] [("12, 7").toList] (("# comment").toList)
      (Or.inr (by decide)), ?_⟩
  exact (exclusion_list_parsing.2.2 [] 0 (("abc, 9").toList) (by decide) (by decide)).trans
    (by decide)

/-! ## C7: spectrogram normalization round-trip
`AudioDataset.normalize_spectrogram` and `AudioDataset.denormalize_spectrogram`.
The attribute `self.spectrogram_normalization` and the stats dict
`self.spec_stats` are passed as parameters; a spectrogram element is a `ℚ`
(the operations are pointwise affine maps). -/

/-- The spec_stats dict: keys min, max, mean, std. -/
structure SpecStats where
  min : ℚ
  max : ℚ
  mean : ℚ
  std : ℚ

/-- AudioDataset.normalize_spectrogram; raising ValueError for an unsupported
normalization name is modelled by Except.error. -/
def normalize_spectrogram (spectrogram_normalization : Option String) (spec_stats : SpecStats)
    (spectrogram : ℚ) : Except String ℚ :=
  if spectrogram_normalization = some "min_max" then
    Except.ok (-1 + (spectrogram - spec_stats.min) / ((spec_stats.max - spec_stats.min) / 2))
  else if spectrogram_normalization = some "mean_std" then
    Except.ok ((spectrogram - spec_stats.mean) / spec_stats.std)
  else if spectrogram_normalization = none then
    Except.ok spectrogram
  else
    Except.error "Cannot perform spectrogram normalization"

/-- AudioDataset.denormalize_spectrogram. -/
def denormalize_spectrogram (spectrogram_normalization : Option String) (spec_stats : SpecStats)
    (spectrogram : ℚ) : Except String ℚ :=
  if spectrogram_normalization = some "min_max" then
    Except.ok ((spectrogram + 1) * ((spec_stats.max - spec_stats.min) / 2) + spec_stats.min)
  else if spectrogram_normalization = some "mean_std" then
    Except.ok (spectrogram * spec_stats.std + spec_stats.mean)
  else if spectrogram_normalization = none then
    Except.ok spectrogram
  else
    Except.error "Cannot undo spectrogram normalization"

/-- C7: for each of the three supported modes, denormalizing the normalized
value recovers the input exactly (given max above min for min-max mode and a
nonzero std for mean-std mode), and any other mode name makes both directions
fail with the unsupported-normalization error. -/
theorem normalization_roundtrip (mode : Option String) (stats : SpecStats) (x : ℚ) :
    (mode = some "min_max" → stats.min < stats.max →
      (normalize_spectrogram mode stats x).bind (denormalize_spectrogram mode stats)
        = Except.ok x) ∧
    (mode = some "mean_std" → stats.std ≠ 0 →
      (normalize_spectrogram mode stats x).bind (denormalize_spectrogram mode stats)
        = Except.ok x) ∧
    (mode = none →
      (normalize_spectrogram mode stats x).bind (denormalize_spectrogram mode stats)
        = Except.ok x) ∧
    (mode ≠ some "min_max" → mode ≠ some "mean_std" → mode ≠ none →
      (∃ e, normalize_spectrogram mode stats x = Except.error e) ∧
      (∃ e, denormalize_spectrogram mode stats x = Except.error e)) := by
  refine ⟨?_, ?_, ?_, ?_⟩
  · intro hm hlt
    subst hm
    have hhalf : (stats.max - stats.min) / 2 ≠ 0 := by
      have hpos : 0 < stats.max - stats.min := by linarith
      have : 0 < (stats.max - stats.min) / 2 := by linarith
      exact ne_of_gt this
    simp only [normalize_spectrogram, denormalize_spectrogram, reduceIte, Except.bind]
    congr 1
    have hone : -1 + (x - stats.min) / ((stats.max - stats.min) / 2) + 1
        = (x - stats.min) / ((stats.max - stats.min) / 2) := by ring
    rw [hone, div_mul_cancel₀ _ hhalf]
    ring
  · intro hm hstd
    subst hm
    simp only [normalize_spectrogram, denormalize_spectrogram, Option.some.injEq,
      String.reduceEq, reduceIte, Except.bind]
    congr 1
    rw [div_mul_cancel₀ _ hstd]
    ring
  · intro hm
    subst hm
    simp only [normalize_spectrogram, denormalize_spectrogram, reduceCtorEq,
      reduceIte, Except.bind]
  · intro h1 h2 h3
    constructor
    · refine ⟨("Cannot perform spectrogram normalization"), ?_⟩
      simp only [normalize_spectrogram]
      rw [if_neg h1, if_neg h2, if_neg h3]
    · refine ⟨("Cannot undo spectrogram normalization"), ?_⟩
      simp only [denormalize_spectrogram]
      rw [if_neg h1, if_neg h2, if_neg h3]

/-- C7 witness: the round trip at concrete stats (min -120, max 0, mean -60,
std 10) and input -30 for each supported mode, and the failure of both
directions for the unsupported mode name bogus. -/
theorem normalization_roundtrip_witness :
    ((normalize_spectrogram (some "min_max") ⟨-120, 0, -60, 10⟩ (-30)).bind
      (denormalize_spectrogram (some "min_max") ⟨-120, 0, -60, 10⟩) = Except.ok (-30)) ∧
    ((normalize_spectrogram (some "mean_std") ⟨-120, 0, -60, 10⟩ (-30)).bind
      (denormalize_spectrogram (some "mean_std") ⟨-120, 0, -60, 10⟩) = Except.ok (-30)) ∧
    ((normalize_spectrogram none ⟨-120, 0, -60, 10⟩ (-30)).bind
      (denormalize_spectrogram none ⟨-120, 0, -60, 10⟩) = Except.ok (-30)) ∧
    (∃ e, normalize_spectrogram (some "bogus") ⟨-120, 0, -60, 10⟩ (-30) = Except.error e) :=
  ⟨(normalization_roundtrip (some "min_max") ⟨-120, 0, -60, 10⟩ (-30)).1 rfl (by norm_num),
   (normalization_roundtrip (some "mean_std") ⟨-120, 0, -60, 10⟩ (-30)).2.1 rfl (by norm_num),
   (normalization_roundtrip none ⟨-120, 0, -60, 10⟩ (-30)).2.2.1 rfl,
   ((normalization_roundtrip (some "bogus") ⟨-120, 0, -60, 10⟩ (-30)).2.2.2
     (by decide) (by decide) (by decide)).1⟩

/-! ## C8: aggregation of per-item stats
`AudioDataset._store_spectrograms_stats`: the per-item rows are the columns of
the full_stats dict built by `_compute_and_store_spectrograms_and_stats_batch`
(one row per rendered spectrogram). -/

/-- One row of the full per-item stats (UID, min, max, mean, var). -/
structure SpecFullStatsRow where
  UID : Int
  min : ℚ
  max : ℚ
  mean : ℚ
  var : ℚ

/-- numpy ndarray.min() over a nonempty array (the empty case never occurs in
the source: there is at least one rendered spectrogram). -/
def npArrayMin : List ℚ → ℚ
  | [] => 0
  | x :: xs => xs.foldl Min.min x

/-- numpy ndarray.max() over a nonempty array. -/
def npArrayMax : List ℚ → ℚ
  | [] => 0
  | x :: xs => xs.foldl Max.max x

/-- numpy ndarray.mean(). -/
def npArrayMean (l : List ℚ) : ℚ :=
  l.sum / l.length

/-- The dataset_stats dict written by _store_spectrograms_stats. -/
structure DatasetSpecStats where
  min : ℚ
  max : ℚ
  mean : ℚ
  std : ℝ

/-- AudioDataset._store_spectrograms_stats: global min and max of the per-item
columns, mean of the per-item means, and std the square root of the mean of
the per-item variances. -/
noncomputable def store_spectrograms_stats (full_stats : List SpecFullStatsRow) :
    DatasetSpecStats :=
  { min := npArrayMin (full_stats.map SpecFullStatsRow.min),
    max := npArrayMax (full_stats.map SpecFullStatsRow.max),
    mean := npArrayMean (full_stats.map SpecFullStatsRow.mean),
    std := Real.sqrt ((npArrayMean (full_stats.map SpecFullStatsRow.var) : ℚ) : ℝ) }

theorem foldl_min_le (l : List ℚ) (a : ℚ) :
    l.foldl Min.min a ≤ a ∧ ∀ q ∈ l, l.foldl Min.min a ≤ q := by
  induction l generalizing a with
  | nil => simp
  | cons x xs ih =>
    have h := ih (Min.min a x)
    refine ⟨le_trans h.1 (min_le_left a x), ?_⟩
    intro q hq
    rcases List.mem_cons.mp hq with hqx | hqxs
    · subst hqx
      exact le_trans h.1 (min_le_right a q)
    · exact h.2 q hqxs

theorem foldl_min_mem (l : List ℚ) (a : ℚ) :
    l.foldl Min.min a = a ∨ l.foldl Min.min a ∈ l := by
  induction l generalizing a with
  | nil => simp
  | cons x xs ih =>
    rcases ih (Min.min a x) with h | h
    · rcases min_choice a x with hax | hax
      · left
        rw [List.foldl_cons, h, hax]
      · right
        rw [List.foldl_cons, h, hax]
        exact List.mem_cons_self x xs
    · right
      exact List.mem_cons_of_mem x h

theorem foldl_max_le (l : List ℚ) (a : ℚ) :
    a ≤ l.foldl Max.max a ∧ ∀ q ∈ l, q ≤ l.foldl Max.max a := by
  induction l generalizing a with
  | nil => simp
  | cons x xs ih =>
    have h := ih (Max.max a x)
    refine ⟨le_trans (le_max_left a x) h.1, ?_⟩
    intro q hq
    rcases List.mem_cons.mp hq with hqx | hqxs
    · subst hqx
      exact le_trans (le_max_right a q) h.1
    · exact h.2 q hqxs

theorem foldl_max_mem (l : List ℚ) (a : ℚ) :
    l.foldl Max.max a = a ∨ l.foldl Max.max a ∈ l := by
  induction l generalizing a with
  | nil => simp
  | cons x xs ih =>
    rcases ih (Max.max a x) with h | h
    · rcases max_choice a x with hax | hax
      · left
        rw [List.foldl_cons, h, hax]
      · right
        rw [List.foldl_cons, h, hax]
        exact List.mem_cons_self x xs
    · right
      exact List.mem_cons_of_mem x h

/-- C8: over a nonempty row list, the aggregated min (resp. max) is a lower
(resp. upper) bound of the per-item mins (maxes) and is attained; the
aggregated mean is the arithmetic mean of the per-item means; the aggregated
std is the square root of the arithmetic mean of the per-item variances, so
per-item variances 1 and 4 aggregate to sqrt (5/2), which differs from the
naive mean of stds 3/2. -/
theorem aggregate_stats_spec (r0 : SpecFullStatsRow) (rest : List SpecFullStatsRow) :
    (∀ q ∈ r0 :: rest, (store_spectrograms_stats (r0 :: rest)).min ≤ q.min) ∧
    ((store_spectrograms_stats (r0 :: rest)).min ∈ (r0 :: rest).map SpecFullStatsRow.min) ∧
    (∀ q ∈ r0 :: rest, q.max ≤ (store_spectrograms_stats (r0 :: rest)).max) ∧
    ((store_spectrograms_stats (r0 :: rest)).max ∈ (r0 :: rest).map SpecFullStatsRow.max) ∧
    ((store_spectrograms_stats (r0 :: rest)).mean
      = ((r0 :: rest).map SpecFullStatsRow.mean).sum / ((r0 :: rest).length : ℚ)) ∧
    ((store_spectrograms_stats (r0 :: rest)).std
      = Real.sqrt ((((r0 :: rest).map SpecFullStatsRow.var).sum / ((r0 :: rest).length : ℚ) : ℚ) : ℝ)) ∧
    ((r0 :: rest).map SpecFullStatsRow.var = [1, 4] →
      (store_spectrograms_stats (r0 :: rest)).std = Real.sqrt (5 / 2) ∧
      (store_spectrograms_stats (r0 :: rest)).std ≠ 3 / 2) := by
  refine ⟨?_, ?_, ?_, ?_, ?_, ?_, ?_⟩
  · intro q hq
    have h := foldl_min_le (rest.map SpecFullStatsRow.min) r0.min
    show npArrayMin ((r0 :: rest).map SpecFullStatsRow.min) ≤ q.min
    rcases List.mem_cons.mp hq with hq0 | hqr
    · subst hq0
      exact h.1
    · exact h.2 q.min (List.mem_map_of_mem SpecFullStatsRow.min hqr)
  · have h := foldl_min_mem (rest.map SpecFullStatsRow.min) r0.min
    show npArrayMin ((r0 :: rest).map SpecFullStatsRow.min) ∈ _
    rw [List.map_cons]
    show (rest.map SpecFullStatsRow.min).foldl Min.min r0.min ∈ _
    rcases h with h | h
    · rw [h]
      exact List.mem_cons_self _ _
    · exact List.mem_cons_of_mem _ h
  · intro q hq
    have h := foldl_max_le (rest.map SpecFullStatsRow.max) r0.max
    show q.max ≤ npArrayMax ((r0 :: rest).map SpecFullStatsRow.max)
    rcases List.mem_cons.mp hq with hq0 | hqr
    · subst hq0
      exact h.1
    · exact h.2 q.max (List.mem_map_of_mem SpecFullStatsRow.max hqr)
  · have h := foldl_max_mem (rest.map SpecFullStatsRow.max) r0.max
    show npArrayMax ((r0 :: rest).map SpecFullStatsRow.max) ∈ _
    rw [List.map_cons]
    show (rest.map SpecFullStatsRow.max).foldl Max.max r0.max ∈ _
    rcases h with h | h
    · rw [h]
      exact List.mem_cons_self _ _
    · exact List.mem_cons_of_mem _ h
  · show npArrayMean ((r0 :: rest).map SpecFullStatsRow.mean) = _
    rw [npArrayMean, List.length_map]
  · have hv : npArrayMean ((r0 :: rest).map SpecFullStatsRow.var)
        = ((r0 :: rest).map SpecFullStatsRow.var).sum / ((r0 :: rest).length : ℚ) := by
      rw [npArrayMean, List.length_map]
    show Real.sqrt ((npArrayMean ((r0 :: rest).map SpecFullStatsRow.var) : ℚ) : ℝ) = _
    rw [hv]
  · intro hvar
    have hmean : npArrayMean ((r0 :: rest).map SpecFullStatsRow.var) = 5 / 2 := by
      rw [hvar]
      norm_num [npArrayMean]
    have hsqrt : (store_spectrograms_stats (r0 :: rest)).std = Real.sqrt (5 / 2) := by
      show Real.sqrt ((npArrayMean ((r0 :: rest).map SpecFullStatsRow.var) : ℚ) : ℝ) = _
      rw [hmean]
      norm_num
    refine ⟨hsqrt, ?_⟩
    rw [hsqrt]
    intro hcontra
    have h52 : (0 : ℝ) ≤ 5 / 2 := by norm_num
    have := Real.sq_sqrt h52
    rw [hcontra] at this
    norm_num at this

/-- C8 witness: two concrete rows with variances 1 and 4 aggregate to the std
sqrt (5/2), not 3/2. -/
theorem aggregate_stats_spec_witness :
    (store_spectrograms_stats
      [⟨1, -120, -3, -60, 1⟩, ⟨2, -110, -5, -55, 4⟩]).std = Real.sqrt (5 / 2) ∧
    (store_spectrograms_stats
      [⟨1, -120, -3, -60, 1⟩, ⟨2, -110, -5, -55, 4⟩]).std ≠ 3 / 2 :=
  (aggregate_stats_spec ⟨1, -120, -3, -60, 1⟩ [⟨2, -110, -5, -55, 4⟩]).2.2.2.2.2.2
    (by decide)

/-! ## C9: zero-volume preset scan
`AudioDataset.zero_volume_preset_indices`: reads the per-item stats rows of
the full-stats csv file and the valid UID list.  The silence floor
`self.compute_spectrogram.min_dB` is the constructor argument
spectrogram_min_dB, stored by the spectrogram helper object. -/

/-- numpy.isclose with its default tolerances (rtol 1e-5, atol 1e-8). -/
def npIsClose (a b : ℚ) : Bool :=
  decide (|a - b| ≤ 1 / 100000000 + 1 / 100000 * |b|)

/-- Python set(): the distinct elements (first-occurrence order here; the
iteration order of a Python set is unspecified, and every statement proved
below is order-independent). -/
def dedupFirstAux (seen : List Int) : List Int → List Int
  | [] => []
  | x :: xs => if x ∈ seen then dedupFirstAux seen xs else x :: dedupFirstAux (x :: seen) xs

/-- Python set() of a UID list. -/
def dedupFirst (l : List Int) : List Int :=
  dedupFirstAux [] l

/-- numpy.where(arr == v)[0]: the positions of v in the array. -/
def npWhereEqAux (v : Int) : List Int → Nat → List Nat
  | [], _ => []
  | x :: xs, k => if x = v then k :: npWhereEqAux v xs (k + 1) else npWhereEqAux v xs (k + 1)

/-- Positions of v in arr (numpy.where on an equality mask). -/
def npWhereEq (arr : List Int) (v : Int) : List Nat :=
  npWhereEqAux v arr 0

/-- The set UIDs_to_exclude: UIDs of the rows whose max is numerically
indistinguishable from the silence floor. -/
def zero_volume_UIDs (d : AudioDataset) (specs_full_stats : List SpecFullStatsRow) : List Int :=
  dedupFirst ((specs_full_stats.filter
    (fun row => npIsClose row.max d.spectrogram_min_dB)).map SpecFullStatsRow.UID)

/-- One iteration of the exclusion loop: a UID absent from the valid list
adds a warning, a UID at a unique position appends that position, and the
ndarray.item() call raises (modelled by `none`) when the UID occurs at
several positions. -/
def zero_volume_step (d : AudioDataset) (acc : Option (List Nat × Nat)) (UID : Int) :
    Option (List Nat × Nat) :=
  acc.bind (fun a =>
    match npWhereEq d.valid_preset_UIDs UID with
    | [] => some (a.1, a.2 + 1)
    | [idx] => some (a.1 ++ [idx], a.2)
    | _ => none)

/-- AudioDataset.zero_volume_preset_indices: the list of positions (in
valid_preset_UIDs) of flagged presets, together with the number of warnings
emitted for flagged UIDs that are not part of the dataset. -/
def zero_volume_preset_indices (d : AudioDataset) (specs_full_stats : List SpecFullStatsRow) :
    Option (List Nat × Nat) :=
  (zero_volume_UIDs d specs_full_stats).foldl (zero_volume_step d) (some ([], 0))

/-- A single-note dataset whose only valid preset has UID 100. -/
def datasetC9 : AudioDataset :=
  { midi_notes := [(60, 100)],
    multichannel_stacked_spectrograms := false,
    valid_preset_UIDs := [100],
    data_augmentation := false,
    spectrogram_min_dB := -120,
    get_nb_variations_per_note := fun _ => 1 }

/-- A stats row list whose single row (UID 100) sits exactly at the floor. -/
def rowsC9 : List SpecFullStatsRow :=
  [⟨100, -120, -120, -120, 0⟩]

/-- The same rows plus a flagged row whose UID 200 is not a valid preset. -/
def rowsC9_with_missing : List SpecFullStatsRow :=
  [⟨100, -120, -120, -120, 0⟩, ⟨200, -120, -120, -120, 0⟩]

theorem mem_dedupFirstAux (x : Int) (l : List Int) (seen : List Int) :
    x ∈ dedupFirstAux seen l ↔ (x ∈ l ∧ x ∉ seen) := by
  induction l generalizing seen with
  | nil => simp [dedupFirstAux]
  | cons y ys ih =>
    by_cases hy : y ∈ seen
    · rw [dedupFirstAux, if_pos hy, ih]
      constructor
      · rintro ⟨hxy, hxs⟩
        exact ⟨List.mem_cons_of_mem y hxy, hxs⟩
      · rintro ⟨hxc, hxs⟩
        rcases List.mem_cons.mp hxc with hxy | hxy
        · exact absurd (hxy ▸ hy) hxs
        · exact ⟨hxy, hxs⟩
    · rw [dedupFirstAux, if_neg hy]
      by_cases hxy : x = y
      · subst hxy
        simp [hy]
      · constructor
        · intro hx
          rcases List.mem_cons.mp hx with h | h
          · exact absurd h hxy
          · have := (ih (y :: seen)).mp h
            refine ⟨List.mem_cons_of_mem y this.1, ?_⟩
            intro hxs
            exact this.2 (List.mem_cons_of_mem y hxs)
        · rintro ⟨hxc, hxs⟩
          rcases List.mem_cons.mp hxc with h | h
          · exact absurd h hxy
          · refine List.mem_cons_of_mem y ((ih (y :: seen)).mpr ⟨h, ?_⟩)
            intro hxs'
            rcases List.mem_cons.mp hxs' with h' | h'
            · exact hxy h'
            · exact hxs h'

theorem mem_dedupFirst (x : Int) (l : List Int) : x ∈ dedupFirst l ↔ x ∈ l := by
  simp [dedupFirst, mem_dedupFirstAux]

theorem npWhereEqAux_not_mem (v : Int) (l : List Int) (k : Nat) (h : v ∉ l) :
    npWhereEqAux v l k = [] := by
  induction l generalizing k with
  | nil => rfl
  | cons x xs ih =>
    rw [npWhereEqAux, if_neg, ih]
    · intro hmem
      exact h (List.mem_cons_of_mem x hmem)
    · intro hxv
      exact h (hxv ▸ List.mem_cons_self x xs)

theorem npWhereEqAux_nodup_mem (v : Int) (l : List Int) (k : Nat)
    (hnd : l.Nodup) (h : v ∈ l) :
    npWhereEqAux v l k = [k + l.indexOf v] := by
  induction l generalizing k with
  | nil => exact absurd h (List.not_mem_nil v)
  | cons x xs ih =>
    by_cases hxv : x = v
    · subst hxv
      rw [npWhereEqAux, if_pos rfl, List.indexOf_cons_self,
        npWhereEqAux_not_mem x xs (k + 1) (List.nodup_cons.mp hnd).1]
      rw [Nat.add_zero]
    · have hvxs : v ∈ xs := by
        rcases List.mem_cons.mp h with h' | h'
        · exact absurd h'.symm hxv
        · exact h'
      rw [npWhereEqAux, if_neg hxv, ih (k + 1) (List.nodup_cons.mp hnd).2 hvxs,
        List.indexOf_cons_ne xs hxv]
      congr 1
      omega

theorem npWhereEq_nodup (d_valid : List Int) (v : Int) (hnd : d_valid.Nodup) :
    (v ∉ d_valid → npWhereEq d_valid v = []) ∧
    (v ∈ d_valid → npWhereEq d_valid v = [d_valid.indexOf v]) := by
  constructor
  · intro h
    exact npWhereEqAux_not_mem v d_valid 0 h
  · intro h
    rw [npWhereEq, npWhereEqAux_nodup_mem v d_valid 0 hnd h, Nat.zero_add]

theorem zero_volume_fold (d : AudioDataset) (hnd : d.valid_preset_UIDs.Nodup)
    (uids : List Int) (us : List Nat) (w : Nat) :
    uids.foldl (zero_volume_step d) (some (us, w))
      = some (us ++ uids.filterMap (fun u =>
            if u ∈ d.valid_preset_UIDs then some (d.valid_preset_UIDs.indexOf u) else none),
          w + uids.countP (fun u => decide (u ∉ d.valid_preset_UIDs))) := by
  induction uids generalizing us w with
  | nil => simp
  | cons u rest ih =>
    by_cases hu : u ∈ d.valid_preset_UIDs
    · have hwhere := (npWhereEq_nodup d.valid_preset_UIDs u hnd).2 hu
      have hstep : ∀ a : List Nat × Nat, zero_volume_step d (some a) u
          = some (a.1 ++ [d.valid_preset_UIDs.indexOf u], a.2) := by
        intro a
        simp only [zero_volume_step, Option.bind]
        rw [hwhere]
      rw [List.foldl_cons, hstep, ih]
      simp [List.filterMap_cons, List.countP_cons, hu, List.append_assoc]
    · have hwhere := (npWhereEq_nodup d.valid_preset_UIDs u hnd).1 hu
      have hstep : ∀ a : List Nat × Nat, zero_volume_step d (some a) u
          = some (a.1, a.2 + 1) := by
        intro a
        simp only [zero_volume_step, Option.bind]
        rw [hwhere]
      rw [List.foldl_cons, hstep, ih]
      simp [List.filterMap_cons, List.countP_cons, hu,
        Nat.add_comm, Nat.add_assoc, Nat.add_left_comm]

theorem npIsClose_at_floor : npIsClose (-120) (-120) = true := by
  have ha : |(-120 : ℚ)| = 120 := by
    rw [abs_of_nonpos (by norm_num)]
    norm_num
  have hb : ((-120 : ℚ)) - (-120) = 0 := by norm_num
  simp only [npIsClose, decide_eq_true_eq, hb, abs_zero, ha]
  norm_num

theorem npIsClose_not_at_floor : npIsClose (-1199 / 10) (-120) = false := by
  have hb : ((-1199 / 10 : ℚ)) - (-120) = 1 / 10 := by norm_num
  have h1 : |(1 / 10 : ℚ)| = 1 / 10 := abs_of_nonneg (by norm_num)
  have ha : |(-120 : ℚ)| = 120 := by
    rw [abs_of_nonpos (by norm_num)]
    norm_num
  simp only [npIsClose, hb, h1, ha, decide_eq_false_iff_not]
  norm_num

/-- C9 counterexample: with the single valid preset UID 100 and one flagged
row of UID 100, the function returns the position list [0] in the valid list,
not the flagged preset-UID list [100]: the claimed return of preset UIDs is
false. -/
theorem zero_volume_counterexample :
    zero_volume_preset_indices datasetC9 rowsC9 = some ([0], 0) ∧
    zero_volume_UIDs datasetC9 rowsC9 = [100] ∧
    ([0] : List Int) ≠ ([100] : List Int) := by
  have h2 : zero_volume_UIDs datasetC9 rowsC9 = [100] := by
    simp [zero_volume_UIDs, rowsC9, datasetC9, List.filter, dedupFirst, dedupFirstAux,
      npIsClose_at_floor]
  refine ⟨?_, h2, by decide⟩
  rw [zero_volume_preset_indices, h2]
  decide

/-- C9 amended: the scan flags exactly the rows whose max is numerically
indistinguishable (numpy.isclose tolerance) from the configured silence
floor, and returns the positions of the flagged presets in the valid-UID
list (not their UIDs); a flagged UID absent from the valid list produces a
warning instead of an entry.  A row exactly at the floor -120 is flagged,
one at -119.9 is not. -/
theorem zero_volume_scan_spec (d : AudioDataset) (specs_full_stats : List SpecFullStatsRow)
    (hnd : d.valid_preset_UIDs.Nodup) :
    (zero_volume_preset_indices d specs_full_stats
      = some ((zero_volume_UIDs d specs_full_stats).filterMap (fun u =>
            if u ∈ d.valid_preset_UIDs then some (d.valid_preset_UIDs.indexOf u) else none),
          (zero_volume_UIDs d specs_full_stats).countP
            (fun u => decide (u ∉ d.valid_preset_UIDs)))) ∧
    (∀ u ∈ zero_volume_UIDs d specs_full_stats,
      ∃ r ∈ specs_full_stats, r.UID = u ∧ npIsClose r.max d.spectrogram_min_dB = true) ∧
    (∀ r ∈ specs_full_stats, npIsClose r.max d.spectrogram_min_dB = true →
      r.UID ∈ zero_volume_UIDs d specs_full_stats) ∧
    (∀ idx ∈ ((zero_volume_UIDs d specs_full_stats).filterMap (fun u =>
        if u ∈ d.valid_preset_UIDs then some (d.valid_preset_UIDs.indexOf u) else none)),
      d.valid_preset_UIDs.getD idx 0 ∈ zero_volume_UIDs d specs_full_stats) ∧
    npIsClose (-120) (-120) = true ∧
    npIsClose (-1199 / 10) (-120) = false := by
  refine ⟨?_, ?_, ?_, ?_, npIsClose_at_floor, npIsClose_not_at_floor⟩
  · have h := zero_volume_fold d hnd (zero_volume_UIDs d specs_full_stats) [] 0
    rw [zero_volume_preset_indices, h]
    simp
  · intro u hu
    have hu' := (mem_dedupFirst u _).mp hu
    rcases List.mem_map.mp hu' with ⟨r, hr, hru⟩
    have hr' := List.mem_filter.mp hr
    exact ⟨r, hr'.1, hru, hr'.2⟩
  · intro r hr hclose
    apply (mem_dedupFirst r.UID _).mpr
    exact List.mem_map_of_mem SpecFullStatsRow.UID (List.mem_filter.mpr ⟨hr, hclose⟩)
  · intro idx hidx
    rcases List.mem_filterMap.mp hidx with ⟨u, hu, hif⟩
    by_cases humem : u ∈ d.valid_preset_UIDs
    · rw [if_pos humem] at hif
      have hidx_eq : idx = d.valid_preset_UIDs.indexOf u := (Option.some.inj hif).symm
      have hlt : d.valid_preset_UIDs.indexOf u < d.valid_preset_UIDs.length :=
        List.indexOf_lt_length.mpr humem
      rw [hidx_eq, list_getD_eq_getElem _ _ hlt, List.getElem_indexOf hlt]
      exact hu
    · rw [if_neg humem] at hif
      exact absurd hif (Option.noConfusion)

/-- C9 witness for the amended claim: with valid UID list [100] and flagged
rows for UIDs 100 and 200 (the latter absent from the dataset), the scan
returns position 0 and one warning. -/
theorem zero_volume_scan_spec_witness :
    zero_volume_preset_indices datasetC9 rowsC9_with_missing = some ([0], 1) := by
  have h2 : zero_volume_UIDs datasetC9 rowsC9_with_missing = [100, 200] := by
    simp [zero_volume_UIDs, rowsC9_with_missing, datasetC9, List.filter, dedupFirst,
      dedupFirstAux, npIsClose_at_floor]
  have h := (zero_volume_scan_spec datasetC9 rowsC9_with_missing (by decide)).1
  rw [h2] at h
  exact h.trans (by decide)

/-! ## C10: determinism of item retrieval without data augmentation
The variation-selection part of `AudioDataset.__getitem__`
(self._last_variation) and the spectrogram cache keys it loads.  The numpy
random generator self._rng is an abstract stream of naturals together with a
position; a draw consumes one position. -/

/-- The state of self._rng. -/
structure RngState where
  stream : Nat → Nat
  pos : Nat

/-- One draw self._rng.integers(0, hi): a value below hi, consuming one
position of the stream. -/
def rng_integers (rng : RngState) (hi : Nat) : Nat × RngState :=
  (rng.stream rng.pos % hi, { rng with pos := rng.pos + 1 })

/-- The variation selection of AudioDataset.__getitem__: a random draw when
data augmentation is enabled, otherwise self._last_variation = 0. -/
def getitem_last_variation (d : AudioDataset) (rng : RngState) (preset_UID : Int) :
    Nat × RngState :=
  if d.data_augmentation then rng_integers rng (d.get_nb_variations_per_note preset_UID)
  else (0, rng)

/-- The key of one spectrogram cache entry (the arguments of
get_spec_file_path). -/
structure SpecCacheKey where
  preset_UID : Int
  midi_pitch : Int
  midi_velocity : Int
  variation : Nat

/-- The cache entries read by AudioDataset.__getitem__ for dataset index i,
with the RNG state afterwards: one entry per loaded MIDI note, all sharing
the single variation chosen for the item. -/
def getitem_loaded_keys (d : AudioDataset) (i : Nat) (rng : RngState) :
    List SpecCacheKey × RngState :=
  let res := getitem_note_resolution d i
  let preset_UID := d.valid_preset_UIDs.getD res.1 0
  let vr := getitem_last_variation d rng preset_UID
  (res.2.map (fun note_idx =>
    let note := d.midi_notes.getD note_idx (0, 0)
    ⟨preset_UID, note.1, note.2, vr.1⟩), vr.2)

/-- C10: with data augmentation disabled, item retrieval is deterministic:
every cache entry the item loads uses variation 0 (one variation shared by
all MIDI-note channels), the RNG state is returned unchanged (no draw is
consumed), and the loaded entries do not depend on the RNG state, so two
runs with the same index read exactly the same cache entries. -/
theorem getitem_deterministic_without_augmentation (d : AudioDataset) (i : Nat)
    (h : d.data_augmentation = false) :
    (∀ rng, (getitem_loaded_keys d i rng).2 = rng) ∧
    (∀ rng, ∀ k ∈ (getitem_loaded_keys d i rng).1, k.variation = 0) ∧
    (∀ rng1 rng2, (getitem_loaded_keys d i rng1).1 = (getitem_loaded_keys d i rng2).1) := by
  have hvar : ∀ rng uid, getitem_last_variation d rng uid = (0, rng) := by
    intro rng uid
    rw [getitem_last_variation, h]
    simp
  refine ⟨?_, ?_, ?_⟩
  · intro rng
    simp only [getitem_loaded_keys, hvar]
  · intro rng k hk
    simp only [getitem_loaded_keys, hvar] at hk
    rcases List.mem_map.mp hk with ⟨note_idx, hmem, hkey⟩
    rw [← hkey]
  · intro rng1 rng2
    simp only [getitem_loaded_keys, hvar]

/-- C10 witness: in the concrete augmentation-free dataset, retrieving index
150 leaves a concrete RNG state untouched and loads only variation-0
entries. -/
theorem getitem_deterministic_without_augmentation_witness :
    dataset6x100.data_augmentation = false ∧
    (getitem_loaded_keys dataset6x100 150 ⟨fun n => n + 7, 3⟩).2 = ⟨fun n => n + 7, 3⟩ ∧
    (∀ k ∈ (getitem_loaded_keys dataset6x100 150 ⟨fun n => n + 7, 3⟩).1, k.variation = 0) := by
  have h := getitem_deterministic_without_augmentation dataset6x100 150 rfl
  exact ⟨rfl, h.1 ⟨fun n => n + 7, 3⟩, h.2.1 ⟨fun n => n + 7, 3⟩⟩
